import Mathlib

/-!
Verification of the bedlam gossip node.

Shallow embedding of `src/node.rs` and `src/messages.rs`: the node state,
the wire payloads, `Node::new`, `Node::initialize`, `Node::send_to` and the
event loop body of `Node::run` are translated into executable Lean
definitions.  Rust `HashMap`s are modelled as association lists accessed
through `lookupS` (the `HashMap::get` of the model); `HashSet<i32>` is
modelled as `Finset Int` (iteration order of a Rust `HashSet` is
unspecified, so a gossip payload built from one is modelled by its set of
elements); `panic!`/`expect` are modelled as `Except.error` carrying the
panic message; `usize` counters are `Nat`.
-/

namespace Bedlam

/-- The wire payload variants (`ExternalPayload` in `src/messages.rs`). -/
inductive ExternalPayload where
  | Init (node_id : String) (node_ids : List String)
  | InitOk
  | Echo (echo : String)
  | EchoOk (echo : String)
  | Generate
  | GenerateOk (id : String)
  | Broadcast (value : Int)
  | BroadcastOk
  | Read
  | ReadOk (messages : Finset Int)
  | Topology (topology : List (String × List String))
  | TopologyOk
  | Gossip (messages : Finset Int)
  deriving DecidableEq

/-- Message body (`Body` in `src/messages.rs`). -/
structure Body where
  msg_id : Option Nat
  in_reply_to : Option Nat
  payload : ExternalPayload
  deriving DecidableEq

/-- Wire envelope (`Message` in `src/messages.rs`). -/
structure Message where
  src : String
  dst : String
  body : Body
  deriving DecidableEq

/-- `InternalPayload` in `src/messages.rs`. -/
inductive InternalPayload where
  | Timer
  | Eof
  deriving DecidableEq

/-- `Event` in `src/messages.rs`. -/
inductive Event where
  | Internal (payload : InternalPayload)
  | External (message : Message)
  deriving DecidableEq

/-- The mutable state of `Node` in `src/node.rs` (the I/O handles are not
part of the model; outbound messages are returned instead). -/
structure NodeState where
  node_id : String
  cluster : List String
  topology : List (String × List String)
  uniq_msg_id : Nat
  broadcast_ids : Finset Int
  known_ids : List (String × Finset Int)
  deriving DecidableEq

/-- `HashMap::get` on the association-list model of a map. -/
def lookupS {α : Type} (k : String) : List (String × α) → Option α
  | [] => none
  | (k', v) :: rest => if k' = k then some v else lookupS k rest

/-- `known_ids.get_mut(src)` followed by `.extend(messages)` in the gossip
arm of `Node::run`; `none` models the `expect` panic on a missing key. -/
def extendKnown (src : String) (msgs : Finset Int) :
    List (String × Finset Int) → Option (List (String × Finset Int))
  | [] => none
  | (k, v) :: rest =>
      if k = src then some ((k, v ∪ msgs) :: rest)
      else (extendKnown src msgs rest).map (fun r => (k, v) :: r)

/-- `Node::new`. -/
def newNode : NodeState :=
  { node_id := ""
    cluster := []
    topology := []
    uniq_msg_id := 0
    broadcast_ids := ∅
    known_ids := [] }

/-- `Node::send_to`: assign the current counter as `msg_id`, bump the
counter, and emit the message. -/
def sendTo (s : NodeState) (dst : String) (in_reply_to : Option Nat)
    (payload : ExternalPayload) : NodeState × Message :=
  ({ s with uniq_msg_id := s.uniq_msg_id + 1 },
   { src := s.node_id, dst := dst,
     body := { msg_id := some s.uniq_msg_id, in_reply_to := in_reply_to,
               payload := payload } })

/-- `Node::initialize`: the first event must be an external `init`; reply
`init_ok`, adopt the identity and seed topology and known-ids exactly as
the source does (the seeded topology entry is the full `node_ids` list and
the seeded known-ids table has the single entry for `node_id` itself). -/
def initNode (s : NodeState) (e : Event) : Except String (NodeState × Message) :=
  match e with
  | .External m =>
      match m.body.payload with
      | .Init node_id node_ids =>
          .ok ({ s with
                   node_id := node_id
                   cluster := node_ids
                   topology := [(node_id, node_ids)]
                   known_ids := [(node_id, ∅)]
                   uniq_msg_id := s.uniq_msg_id + 1 },
               { src := node_id, dst := m.src,
                 body := { msg_id := some s.uniq_msg_id,
                           in_reply_to := m.body.msg_id,
                           payload := .InitOk } })
      | _ => .error "expected init message"
  | _ => .error "expected init message"

/-- The `filter_map` over neighbours in the `Timer` arm of `Node::run`:
for each destination compute `pending = broadcast_ids − known_ids[dest]`,
keep the non-empty ones; a missing bucket is the `expect` panic. -/
def gossipTargets (broadcast : Finset Int) (known : List (String × Finset Int)) :
    List String → Except String (List (String × Finset Int))
  | [] => .ok []
  | d :: rest =>
      match lookupS d known with
      | none => .error "always have a known_for bucket"
      | some k =>
          match gossipTargets broadcast known rest with
          | .error msg => .error msg
          | .ok tail =>
              .ok (if broadcast \ k = ∅ then tail else (d, broadcast \ k) :: tail)

/-- The send loop over `gossip_targets` in the `Timer` arm of `Node::run`. -/
def sendGossip : NodeState → List (String × Finset Int) → NodeState × List Message
  | s, [] => (s, [])
  | s, (d, pending) :: rest =>
      let r := sendTo s d none (.Gossip pending)
      let rest' := sendGossip r.1 rest
      (rest'.1, r.2 :: rest'.2)

/-- One iteration of the event loop in `Node::run` (the `Eof` arm, which
breaks the loop, is handled by `run`): returns the new state and the
outbound messages, or the message of the panic the source would raise. -/
def step (s : NodeState) (e : Event) : Except String (NodeState × List Message) :=
  match e with
  | .Internal .Timer =>
      if s.broadcast_ids = ∅ then .ok (s, [])
      else
        match lookupS s.node_id s.topology with
        | none => .error "always have our own topology node"
        | some neighbors =>
            match gossipTargets s.broadcast_ids s.known_ids neighbors with
            | .error msg => .error msg
            | .ok targets => .ok (sendGossip s targets)
  | .Internal .Eof => .ok (s, [])
  | .External m =>
      match m.body.payload with
      | .Init _ _ => .error "got `init` but already initialized"
      | .Echo echo =>
          let r := sendTo s m.src m.body.msg_id (.EchoOk echo)
          .ok (r.1, [r.2])
      | .Generate =>
          let r := sendTo s m.src m.body.msg_id
            (.GenerateOk (s.node_id ++ "-" ++ toString s.uniq_msg_id))
          .ok (r.1, [r.2])
      | .Broadcast value =>
          let r := sendTo s m.src m.body.msg_id .BroadcastOk
          .ok ({ r.1 with broadcast_ids := insert value r.1.broadcast_ids }, [r.2])
      | .Topology topo =>
          let s₁ := { s with
            topology := topo
            known_ids := ((topo.map Prod.fst).filter (fun n => n ≠ s.node_id)).map
              (fun k => (k, (∅ : Finset Int))) }
          let r := sendTo s₁ m.src m.body.msg_id .TopologyOk
          .ok (r.1, [r.2])
      | .Read =>
          let r := sendTo s m.src m.body.msg_id (.ReadOk s.broadcast_ids)
          .ok (r.1, [r.2])
      | .Gossip msgs =>
          match extendKnown m.src msgs s.known_ids with
          | none => .error "always have an entry for node topology"
          | some ki =>
              .ok ({ s with
                       broadcast_ids := s.broadcast_ids ∪ msgs
                       known_ids := ki }, [])
      | .InitOk => .ok (s, [])
      | .EchoOk _ => .ok (s, [])
      | .GenerateOk _ => .ok (s, [])
      | .BroadcastOk => .ok (s, [])
      | .ReadOk _ => .ok (s, [])
      | .TopologyOk => .ok (s, [])

/-- The event loop of `Node::run` over a finite event trace: processes
events in order, concatenating outputs, and stops at `Eof`. -/
def run (s : NodeState) : List Event → Except String (NodeState × List Message)
  | [] => .ok (s, [])
  | .Internal .Eof :: _ => .ok (s, [])
  | e :: rest =>
      match step s e with
      | .error msg => .error msg
      | .ok (s', out) =>
          match run s' rest with
          | .error msg => .error msg
          | .ok (s'', outs) => .ok (s'', out ++ outs)

/-- The driver's first message in the concrete scenario of the spec:
`init {node_id: "n1", node_ids: ["n1","n2"]}`. -/
def initMsg : Message :=
  { src := "c0", dst := "n1",
    body := { msg_id := some 7, in_reply_to := none,
              payload := .Init "n1" ["n1", "n2"] } }

/-- A client `broadcast {message: 5}` to `n1`. -/
def bcastMsg : Message :=
  { src := "c0", dst := "n1",
    body := { msg_id := some 8, in_reply_to := none,
              payload := .Broadcast 5 } }

/-- A `topology` message whose mapping has no entry for `n1`. -/
def topoMsg : Message :=
  { src := "c0", dst := "n1",
    body := { msg_id := some 9, in_reply_to := none,
              payload := .Topology [("n2", [])] } }

/-- Is the event an external `topology` message? -/
def isTopoEvent : Event → Bool
  | .External m =>
      match m.body.payload with
      | .Topology _ => true
      | _ => false
  | _ => false

/-- The event is allowed for node id `nid`: if it is a `topology` message,
its mapping carries an entry keyed by `nid` (the driver-conformance
condition; every other event is allowed unconditionally). -/
def topoOkFor (nid : String) : Event → Bool
  | .External m =>
      match m.body.payload with
      | .Topology topo => (lookupS nid topo).isSome
      | _ => true
  | _ => true

/-- The expected `msg_id` sequence of `n` consecutive sends whose counter
starts at `c`: `some c, some (c+1), …`. -/
def idsFrom (c : Nat) : Nat → List (Option Nat)
  | 0 => []
  | n + 1 => some c :: idsFrom (c + 1) n

/-- Numeric value of a decimal digit character. -/
def charVal (c : Char) : Nat := c.toNat - 48

/-- Decode a list of decimal digit characters back into the number; the
left inverse used to show decimal rendering is injective. -/
def decodeDigits (l : List Char) : Nat := l.foldl (fun a c => 10 * a + charVal c) 0

/-- An already-initialized state used to instantiate the theorems on a
concrete input: node `n1` in cluster `{n1, n2}`, neighbor list `[n2]`,
broadcast set `{5}`, an empty known-ids bucket for `n2`. -/
def wState : NodeState :=
  { node_id := "n1"
    cluster := ["n1", "n2"]
    topology := [("n1", ["n2"])]
    uniq_msg_id := 3
    broadcast_ids := {5}
    known_ids := [("n2", ∅)] }

/-- The state `initNode` produces from `newNode` on `initMsg`. -/
def postInit : NodeState :=
  { node_id := "n1"
    cluster := ["n1", "n2"]
    topology := [("n1", ["n1", "n2"])]
    uniq_msg_id := 1
    broadcast_ids := ∅
    known_ids := [("n1", ∅)] }

/-- The `init_ok` reply `initNode` produces on `initMsg`. -/
def initOkReply : Message :=
  { src := "n1", dst := "c0",
    body := { msg_id := some 0, in_reply_to := some 7, payload := .InitOk } }

/-- The state after `wState` processes `bcastMsg`. -/
def wAfterB : NodeState :=
  { node_id := "n1"
    cluster := ["n1", "n2"]
    topology := [("n1", ["n2"])]
    uniq_msg_id := 4
    broadcast_ids := insert 5 {5}
    known_ids := [("n2", ∅)] }

/-- The `broadcast_ok` reply `wState` produces on `bcastMsg`. -/
def bReply : Message :=
  { src := "n1", dst := "c0",
    body := { msg_id := some 3, in_reply_to := some 8, payload := .BroadcastOk } }

/-- The state after `postInit` processes `bcastMsg`. -/
def postB : NodeState :=
  { node_id := "n1"
    cluster := ["n1", "n2"]
    topology := [("n1", ["n1", "n2"])]
    uniq_msg_id := 2
    broadcast_ids := insert 5 ∅
    known_ids := [("n1", ∅)] }

/-- The `broadcast_ok` reply `postInit` produces on `bcastMsg`. -/
def postBReply : Message :=
  { src := "n1", dst := "c0",
    body := { msg_id := some 1, in_reply_to := some 8, payload := .BroadcastOk } }

/-- The state after `wState` processes `gossip {messages: {5}}` from `n2`. -/
def wGos : NodeState :=
  { node_id := "n1"
    cluster := ["n1", "n2"]
    topology := [("n1", ["n2"])]
    uniq_msg_id := 3
    broadcast_ids := {5} ∪ {5}
    known_ids := [("n2", ∅ ∪ {5})] }

lemma sendGossip_fst (ts : List (String × Finset Int)) (s : NodeState) :
    (sendGossip s ts).1 = { s with uniq_msg_id := s.uniq_msg_id + ts.length } := by
  induction ts generalizing s with
  | nil => rfl
  | cons t rest ih =>
      obtain ⟨d, pending⟩ := t
      simp only [sendGossip, sendTo, ih, List.length_cons]
      congr 1
      omega

lemma sendGossip_mem (ts : List (String × Finset Int)) (s : NodeState)
    (msg : Message) (hm : msg ∈ (sendGossip s ts).2) :
    ∃ d pending, (d, pending) ∈ ts ∧ msg.src = s.node_id ∧ msg.dst = d ∧
      msg.body.in_reply_to = none ∧ msg.body.payload = .Gossip pending := by
  induction ts generalizing s with
  | nil => simp [sendGossip] at hm
  | cons t rest ih =>
      obtain ⟨d, pending⟩ := t
      simp only [sendGossip, List.mem_cons] at hm
      rcases hm with hm | hm
      · exact ⟨d, pending, by simp [hm, sendTo]⟩
      · obtain ⟨d', p', hp', h1, h2, h3, h4⟩ := ih _ hm
        exact ⟨d', p', by simp [hp'], by simpa [sendTo] using h1, h2, h3, h4⟩

lemma gossipTargets_mem (ns : List String) (b : Finset Int)
    (known : List (String × Finset Int)) (ts : List (String × Finset Int))
    (h : gossipTargets b known ns = .ok ts) (d : String) (pending : Finset Int)
    (ht : (d, pending) ∈ ts) :
    ∃ k, lookupS d known = some k ∧ pending = b \ k ∧ pending ≠ ∅ := by
  induction ns generalizing ts with
  | nil =>
      simp only [gossipTargets, Except.ok.injEq] at h
      subst h
      simp at ht
  | cons d' rest ih =>
      simp only [gossipTargets] at h
      cases hl : lookupS d' known with
      | none => simp [hl] at h
      | some k =>
          rw [hl] at h
          cases hr : gossipTargets b known rest with
          | error msg => simp [hr] at h
          | ok tail =>
              rw [hr] at h
              simp only [Except.ok.injEq] at h
              subst h
              by_cases he : b \ k = ∅
              · rw [if_pos he] at ht
                exact ih tail hr ht
              · rw [if_neg he] at ht
                rcases List.mem_cons.mp ht with ht | ht
                · obtain ⟨h1, h2⟩ := Prod.mk.injEq .. ▸ ht
                  subst h1; subst h2
                  exact ⟨k, hl, rfl, he⟩
                · exact ih tail hr ht

lemma extendKnown_some (src : String) (msgs : Finset Int)
    (l l' : List (String × Finset Int)) (h : extendKnown src msgs l = some l') :
    ∃ k, lookupS src l = some k ∧ lookupS src l' = some (k ∪ msgs) := by
  induction l generalizing l' with
  | nil => simp [extendKnown] at h
  | cons t rest ih =>
      obtain ⟨k0, v⟩ := t
      by_cases hk : k0 = src
      · simp only [extendKnown, if_pos hk, Option.some.injEq] at h
        subst h
        exact ⟨v, by simp [lookupS, hk], by simp [lookupS, hk]⟩
      · simp only [extendKnown, if_neg hk] at h
        cases hr : extendKnown src msgs rest with
        | none => simp [hr] at h
        | some r' =>
            rw [hr] at h
            have h' : (k0, v) :: r' = l' := by simpa using h
            subst h'
            obtain ⟨k, h1, h2⟩ := ih r' hr
            exact ⟨k, by simp [lookupS, hk, h1], by simp [lookupS, hk, h2]⟩

lemma extendKnown_of_lookup (src : String) (msgs k : Finset Int)
    (l : List (String × Finset Int)) (hk : lookupS src l = some k) :
    ∃ l', extendKnown src msgs l = some l' := by
  induction l with
  | nil => simp [lookupS] at hk
  | cons t rest ih =>
      obtain ⟨k0, v⟩ := t
      by_cases h0 : k0 = src
      · exact ⟨(k0, v ∪ msgs) :: rest, by simp [extendKnown, h0]⟩
      · rw [lookupS, if_neg h0] at hk
        obtain ⟨r', hr⟩ := ih hk
        exact ⟨(k0, v) :: r', by simp [extendKnown, h0, hr]⟩

lemma extendKnown_mono (src : String) (msgs : Finset Int)
    (l l' : List (String × Finset Int)) (h : extendKnown src msgs l = some l')
    (D : String) (k : Finset Int) (hk : lookupS D l = some k) :
    ∃ k', lookupS D l' = some k' ∧ k ⊆ k' := by
  induction l generalizing l' with
  | nil => simp [extendKnown] at h
  | cons t rest ih =>
      obtain ⟨k0, v⟩ := t
      by_cases h0 : k0 = src
      · simp only [extendKnown, if_pos h0, Option.some.injEq] at h
        subst h
        by_cases hD : k0 = D
        · rw [lookupS, if_pos hD] at hk
          injection hk with hk
          subst hk
          exact ⟨v ∪ msgs, by simp [lookupS, hD], Finset.subset_union_left⟩
        · rw [lookupS, if_neg hD] at hk
          exact ⟨k, by simp [lookupS, hD, hk], Finset.Subset.refl _⟩
      · simp only [extendKnown, if_neg h0] at h
        cases hr : extendKnown src msgs rest with
        | none => simp [hr] at h
        | some r' =>
            rw [hr] at h
            have h' : (k0, v) :: r' = l' := by simpa using h
            subst h'
            by_cases hD : k0 = D
            · rw [lookupS, if_pos hD] at hk
              injection hk with hk
              subst hk
              exact ⟨v, by simp [lookupS, hD], Finset.Subset.refl _⟩
            · rw [lookupS, if_neg hD] at hk
              obtain ⟨k', h1, h2⟩ := ih r' hr hk
              exact ⟨k', by simp [lookupS, hD, h1], h2⟩

lemma step_frame (s : NodeState) (e : Event) (s' : NodeState) (out : List Message)
    (h : step s e = .ok (s', out)) :
    s'.node_id = s.node_id ∧ s.broadcast_ids ⊆ s'.broadcast_ids ∧
      (isTopoEvent e = false →
        s'.topology = s.topology ∧
        ∀ D k, lookupS D s.known_ids = some k →
          ∃ k', lookupS D s'.known_ids = some k' ∧ k ⊆ k') := by
  cases e with
  | Internal p =>
      cases p with
      | Timer =>
          simp only [step] at h
          by_cases hb : s.broadcast_ids = ∅
          · rw [if_pos hb] at h
            simp only [Except.ok.injEq, Prod.mk.injEq] at h
            obtain ⟨rfl, rfl⟩ := h
            exact ⟨rfl, Finset.Subset.refl _,
              fun _ => ⟨rfl, fun D k hk => ⟨k, hk, Finset.Subset.refl _⟩⟩⟩
          · rw [if_neg hb] at h
            split at h
            · simp at h
            · split at h
              · simp at h
              · rename_i targets hg
                simp only [Except.ok.injEq] at h
                have hs : s' = (sendGossip s targets).1 := by rw [h]
                rw [sendGossip_fst] at hs
                subst hs
                exact ⟨rfl, Finset.Subset.refl _,
                  fun _ => ⟨rfl, fun D k hk => ⟨k, hk, Finset.Subset.refl _⟩⟩⟩
      | Eof =>
          simp only [step, Except.ok.injEq, Prod.mk.injEq] at h
          obtain ⟨rfl, rfl⟩ := h
          exact ⟨rfl, Finset.Subset.refl _,
            fun _ => ⟨rfl, fun D k hk => ⟨k, hk, Finset.Subset.refl _⟩⟩⟩
  | External m =>
      obtain ⟨src, dst, bd⟩ := m
      obtain ⟨mid, irt, p⟩ := bd
      cases p with
      | Init nid nids => simp [step] at h
      | Echo echo =>
          simp only [step, sendTo, Except.ok.injEq, Prod.mk.injEq] at h
          obtain ⟨rfl, rfl⟩ := h
          exact ⟨rfl, Finset.Subset.refl _,
            fun _ => ⟨rfl, fun D k hk => ⟨k, hk, Finset.Subset.refl _⟩⟩⟩
      | Generate =>
          simp only [step, sendTo, Except.ok.injEq, Prod.mk.injEq] at h
          obtain ⟨rfl, rfl⟩ := h
          exact ⟨rfl, Finset.Subset.refl _,
            fun _ => ⟨rfl, fun D k hk => ⟨k, hk, Finset.Subset.refl _⟩⟩⟩
      | Broadcast value =>
          simp only [step, sendTo, Except.ok.injEq, Prod.mk.injEq] at h
          obtain ⟨rfl, rfl⟩ := h
          exact ⟨rfl, Finset.subset_insert _ _,
            fun _ => ⟨rfl, fun D k hk => ⟨k, hk, Finset.Subset.refl _⟩⟩⟩
      | Topology topo =>
          simp only [step, sendTo, Except.ok.injEq, Prod.mk.injEq] at h
          obtain ⟨rfl, rfl⟩ := h
          refine ⟨rfl, Finset.Subset.refl _, fun hf => ?_⟩
          simp [isTopoEvent] at hf
      | Read =>
          simp only [step, sendTo, Except.ok.injEq, Prod.mk.injEq] at h
          obtain ⟨rfl, rfl⟩ := h
          exact ⟨rfl, Finset.Subset.refl _,
            fun _ => ⟨rfl, fun D k hk => ⟨k, hk, Finset.Subset.refl _⟩⟩⟩
      | Gossip msgs =>
          simp only [step] at h
          cases hek : extendKnown src msgs s.known_ids with
          | none => rw [hek] at h; simp at h
          | some ki =>
              rw [hek] at h
              simp only [Except.ok.injEq, Prod.mk.injEq] at h
              obtain ⟨rfl, rfl⟩ := h
              exact ⟨rfl, Finset.subset_union_left,
                fun _ => ⟨rfl, fun D k hk => extendKnown_mono _ _ _ _ hek D k hk⟩⟩
      | InitOk =>
          simp only [step, Except.ok.injEq, Prod.mk.injEq] at h
          obtain ⟨rfl, rfl⟩ := h
          exact ⟨rfl, Finset.Subset.refl _,
            fun _ => ⟨rfl, fun D k hk => ⟨k, hk, Finset.Subset.refl _⟩⟩⟩
      | EchoOk echo =>
          simp only [step, Except.ok.injEq, Prod.mk.injEq] at h
          obtain ⟨rfl, rfl⟩ := h
          exact ⟨rfl, Finset.Subset.refl _,
            fun _ => ⟨rfl, fun D k hk => ⟨k, hk, Finset.Subset.refl _⟩⟩⟩
      | GenerateOk id =>
          simp only [step, Except.ok.injEq, Prod.mk.injEq] at h
          obtain ⟨rfl, rfl⟩ := h
          exact ⟨rfl, Finset.Subset.refl _,
            fun _ => ⟨rfl, fun D k hk => ⟨k, hk, Finset.Subset.refl _⟩⟩⟩
      | BroadcastOk =>
          simp only [step, Except.ok.injEq, Prod.mk.injEq] at h
          obtain ⟨rfl, rfl⟩ := h
          exact ⟨rfl, Finset.Subset.refl _,
            fun _ => ⟨rfl, fun D k hk => ⟨k, hk, Finset.Subset.refl _⟩⟩⟩
      | ReadOk msgs =>
          simp only [step, Except.ok.injEq, Prod.mk.injEq] at h
          obtain ⟨rfl, rfl⟩ := h
          exact ⟨rfl, Finset.Subset.refl _,
            fun _ => ⟨rfl, fun D k hk => ⟨k, hk, Finset.Subset.refl _⟩⟩⟩
      | TopologyOk =>
          simp only [step, Except.ok.injEq, Prod.mk.injEq] at h
          obtain ⟨rfl, rfl⟩ := h
          exact ⟨rfl, Finset.Subset.refl _,
            fun _ => ⟨rfl, fun D k hk => ⟨k, hk, Finset.Subset.refl _⟩⟩⟩

lemma run_cons_ne_eof (s : NodeState) (e : Event) (rest : List Event)
    (hne : e ≠ .Internal .Eof) :
    run s (e :: rest) =
      match step s e with
      | .error msg => .error msg
      | .ok (s1, out) =>
          match run s1 rest with
          | .error msg => .error msg
          | .ok (s2, outs) => .ok (s2, out ++ outs) := by
  rcases e with p | m
  · cases p
    · rfl
    · exact absurd rfl hne
  · rfl

lemma sendGossip_ids (ts : List (String × Finset Int)) (s : NodeState) :
    ((sendGossip s ts).2).map (fun m => m.body.msg_id)
      = idsFrom s.uniq_msg_id ts.length ∧ (sendGossip s ts).2.length = ts.length := by
  induction ts generalizing s with
  | nil => simp [sendGossip, idsFrom]
  | cons t rest ih =>
      obtain ⟨d, pending⟩ := t
      obtain ⟨h1, h2⟩ := ih { s with uniq_msg_id := s.uniq_msg_id + 1 }
      simp only [sendGossip, sendTo, List.map_cons, List.length_cons, idsFrom]
      exact ⟨by rw [h1], by rw [h2]⟩

lemma step_ids (s : NodeState) (e : Event) (s' : NodeState) (out : List Message)
    (h : step s e = .ok (s', out)) :
    out.map (fun m => m.body.msg_id) = idsFrom s.uniq_msg_id out.length ∧
      s'.uniq_msg_id = s.uniq_msg_id + out.length := by
  cases e with
  | Internal p =>
      cases p with
      | Timer =>
          simp only [step] at h
          by_cases hb : s.broadcast_ids = ∅
          · rw [if_pos hb] at h
            simp only [Except.ok.injEq, Prod.mk.injEq] at h
            obtain ⟨rfl, rfl⟩ := h
            simp [idsFrom]
          · rw [if_neg hb] at h
            split at h
            · simp at h
            · split at h
              · simp at h
              · rename_i targets hg
                simp only [Except.ok.injEq] at h
                have hs : s' = (sendGossip s targets).1 := by rw [h]
                have ho : out = (sendGossip s targets).2 := by rw [h]
                obtain ⟨h1, h2⟩ := sendGossip_ids targets s
                rw [hs, ho, sendGossip_fst, h2, h1]
                exact ⟨rfl, rfl⟩
      | Eof =>
          simp only [step, Except.ok.injEq, Prod.mk.injEq] at h
          obtain ⟨rfl, rfl⟩ := h
          simp [idsFrom]
  | External m =>
      obtain ⟨src, dst, bd⟩ := m
      obtain ⟨mid, irt, p⟩ := bd
      cases p with
      | Init nid nids => simp [step] at h
      | Echo echo =>
          simp only [step, sendTo, Except.ok.injEq, Prod.mk.injEq] at h
          obtain ⟨rfl, rfl⟩ := h
          simp [idsFrom]
      | Generate =>
          simp only [step, sendTo, Except.ok.injEq, Prod.mk.injEq] at h
          obtain ⟨rfl, rfl⟩ := h
          simp [idsFrom]
      | Broadcast value =>
          simp only [step, sendTo, Except.ok.injEq, Prod.mk.injEq] at h
          obtain ⟨rfl, rfl⟩ := h
          simp [idsFrom]
      | Topology topo =>
          simp only [step, sendTo, Except.ok.injEq, Prod.mk.injEq] at h
          obtain ⟨rfl, rfl⟩ := h
          simp [idsFrom]
      | Read =>
          simp only [step, sendTo, Except.ok.injEq, Prod.mk.injEq] at h
          obtain ⟨rfl, rfl⟩ := h
          simp [idsFrom]
      | Gossip msgs =>
          simp only [step] at h
          cases hek : extendKnown src msgs s.known_ids with
          | none => rw [hek] at h; simp at h
          | some ki =>
              rw [hek] at h
              simp only [Except.ok.injEq, Prod.mk.injEq] at h
              obtain ⟨rfl, rfl⟩ := h
              simp [idsFrom]
      | InitOk =>
          simp only [step, Except.ok.injEq, Prod.mk.injEq] at h
          obtain ⟨rfl, rfl⟩ := h
          simp [idsFrom]
      | EchoOk echo =>
          simp only [step, Except.ok.injEq, Prod.mk.injEq] at h
          obtain ⟨rfl, rfl⟩ := h
          simp [idsFrom]
      | GenerateOk id =>
          simp only [step, Except.ok.injEq, Prod.mk.injEq] at h
          obtain ⟨rfl, rfl⟩ := h
          simp [idsFrom]
      | BroadcastOk =>
          simp only [step, Except.ok.injEq, Prod.mk.injEq] at h
          obtain ⟨rfl, rfl⟩ := h
          simp [idsFrom]
      | ReadOk msgs =>
          simp only [step, Except.ok.injEq, Prod.mk.injEq] at h
          obtain ⟨rfl, rfl⟩ := h
          simp [idsFrom]
      | TopologyOk =>
          simp only [step, Except.ok.injEq, Prod.mk.injEq] at h
          obtain ⟨rfl, rfl⟩ := h
          simp [idsFrom]

lemma step_gossip_out (s : NodeState) (e : Event) (s' : NodeState) (out : List Message)
    (h : step s e = .ok (s', out)) (msg : Message) (hm : msg ∈ out)
    (ms : Finset Int) (hp : msg.body.payload = .Gossip ms) :
    ∃ k, lookupS msg.dst s.known_ids = some k ∧ ms = s.broadcast_ids \ k := by
  cases e with
  | Internal p =>
      cases p with
      | Timer =>
          simp only [step] at h
          by_cases hb : s.broadcast_ids = ∅
          · rw [if_pos hb] at h
            simp only [Except.ok.injEq, Prod.mk.injEq] at h
            obtain ⟨rfl, rfl⟩ := h
            simp at hm
          · rw [if_neg hb] at h
            split at h
            · simp at h
            · split at h
              · simp at h
              · rename_i targets hg
                simp only [Except.ok.injEq] at h
                have ho : out = (sendGossip s targets).2 := by rw [h]
                subst ho
                obtain ⟨d, pending, hd, hsrc, hdst, hirt, hpay⟩ :=
                  sendGossip_mem targets s msg hm
                have hpm : ExternalPayload.Gossip ms = .Gossip pending :=
                  hp.symm.trans hpay
                injection hpm with hpm
                subst hpm
                obtain ⟨k, hk, hpe, -⟩ :=
                  gossipTargets_mem _ _ _ _ hg d ms hd
                exact ⟨k, by rw [hdst]; exact hk, hpe⟩
      | Eof =>
          simp only [step, Except.ok.injEq, Prod.mk.injEq] at h
          obtain ⟨rfl, rfl⟩ := h
          simp at hm
  | External m =>
      obtain ⟨src, dst, bd⟩ := m
      obtain ⟨mid, irt, p⟩ := bd
      cases p with
      | Init nid nids => simp [step] at h
      | Echo echo =>
          simp only [step, sendTo, Except.ok.injEq, Prod.mk.injEq] at h
          obtain ⟨rfl, rfl⟩ := h
          simp only [List.mem_singleton] at hm
          subst hm
          simp at hp
      | Generate =>
          simp only [step, sendTo, Except.ok.injEq, Prod.mk.injEq] at h
          obtain ⟨rfl, rfl⟩ := h
          simp only [List.mem_singleton] at hm
          subst hm
          simp at hp
      | Broadcast value =>
          simp only [step, sendTo, Except.ok.injEq, Prod.mk.injEq] at h
          obtain ⟨rfl, rfl⟩ := h
          simp only [List.mem_singleton] at hm
          subst hm
          simp at hp
      | Topology topo =>
          simp only [step, sendTo, Except.ok.injEq, Prod.mk.injEq] at h
          obtain ⟨rfl, rfl⟩ := h
          simp only [List.mem_singleton] at hm
          subst hm
          simp at hp
      | Read =>
          simp only [step, sendTo, Except.ok.injEq, Prod.mk.injEq] at h
          obtain ⟨rfl, rfl⟩ := h
          simp only [List.mem_singleton] at hm
          subst hm
          simp at hp
      | Gossip msgs =>
          simp only [step] at h
          cases hek : extendKnown src msgs s.known_ids with
          | none => rw [hek] at h; simp at h
          | some ki =>
              rw [hek] at h
              simp only [Except.ok.injEq, Prod.mk.injEq] at h
              obtain ⟨rfl, rfl⟩ := h
              simp at hm
      | InitOk =>
          simp only [step, Except.ok.injEq, Prod.mk.injEq] at h
          obtain ⟨rfl, rfl⟩ := h
          simp at hm
      | EchoOk echo =>
          simp only [step, Except.ok.injEq, Prod.mk.injEq] at h
          obtain ⟨rfl, rfl⟩ := h
          simp at hm
      | GenerateOk id =>
          simp only [step, Except.ok.injEq, Prod.mk.injEq] at h
          obtain ⟨rfl, rfl⟩ := h
          simp at hm
      | BroadcastOk =>
          simp only [step, Except.ok.injEq, Prod.mk.injEq] at h
          obtain ⟨rfl, rfl⟩ := h
          simp at hm
      | ReadOk msgs =>
          simp only [step, Except.ok.injEq, Prod.mk.injEq] at h
          obtain ⟨rfl, rfl⟩ := h
          simp at hm
      | TopologyOk =>
          simp only [step, Except.ok.injEq, Prod.mk.injEq] at h
          obtain ⟨rfl, rfl⟩ := h
          simp at hm

lemma step_topo_eq (s : NodeState) (src dst : String) (mid irt : Option Nat)
    (topo : List (String × List String)) :
    step s (.External ⟨src, dst, ⟨mid, irt, .Topology topo⟩⟩)
      = .ok ({ s with
                 topology := topo
                 known_ids := ((topo.map Prod.fst).filter (fun n => n ≠ s.node_id)).map
                   (fun k => (k, (∅ : Finset Int)))
                 uniq_msg_id := s.uniq_msg_id + 1 },
             [{ src := s.node_id, dst := src,
                body := { msg_id := some s.uniq_msg_id, in_reply_to := mid,
                          payload := .TopologyOk } }]) := rfl

lemma isTopoEvent_true {e : Event} (h : isTopoEvent e = true) :
    ∃ src dst mid irt topo,
      e = .External ⟨src, dst, ⟨mid, irt, .Topology topo⟩⟩ := by
  rcases e with p | ⟨src, dst, ⟨mid, irt, p⟩⟩
  · simp [isTopoEvent] at h
  · cases p with
    | Topology topo => exact ⟨src, dst, mid, irt, topo, rfl⟩
    | Init nid nids => simp [isTopoEvent] at h
    | InitOk => simp [isTopoEvent] at h
    | Echo echo => simp [isTopoEvent] at h
    | EchoOk echo => simp [isTopoEvent] at h
    | Generate => simp [isTopoEvent] at h
    | GenerateOk id => simp [isTopoEvent] at h
    | Broadcast value => simp [isTopoEvent] at h
    | BroadcastOk => simp [isTopoEvent] at h
    | Read => simp [isTopoEvent] at h
    | ReadOk msgs => simp [isTopoEvent] at h
    | TopologyOk => simp [isTopoEvent] at h
    | Gossip msgs => simp [isTopoEvent] at h

lemma initNode_ok (s : NodeState) (e : Event) (s0 : NodeState) (m0 : Message)
    (h : initNode s e = .ok (s0, m0)) :
    lookupS s0.node_id s0.topology = some s0.cluster ∧
      lookupS s0.node_id s0.known_ids = some ∅ ∧
      s0.uniq_msg_id = s.uniq_msg_id + 1 ∧
      s0.broadcast_ids = s.broadcast_ids ∧
      m0.body.msg_id = some s.uniq_msg_id := by
  rcases e with p | ⟨src, dst, ⟨mid, irt, p⟩⟩
  · simp [initNode] at h
  · cases p with
    | Init nid nids =>
        simp only [initNode, Except.ok.injEq, Prod.mk.injEq] at h
        obtain ⟨rfl, rfl⟩ := h
        exact ⟨by simp [lookupS], by simp [lookupS], rfl, rfl, rfl⟩
    | InitOk => simp [initNode] at h
    | Echo echo => simp [initNode] at h
    | EchoOk echo => simp [initNode] at h
    | Generate => simp [initNode] at h
    | GenerateOk id => simp [initNode] at h
    | Broadcast value => simp [initNode] at h
    | BroadcastOk => simp [initNode] at h
    | Read => simp [initNode] at h
    | ReadOk msgs => simp [initNode] at h
    | Topology topo => simp [initNode] at h
    | TopologyOk => simp [initNode] at h
    | Gossip msgs => simp [initNode] at h

lemma idsFrom_append (a : Nat) : ∀ (c b : Nat),
    idsFrom c (a + b) = idsFrom c a ++ idsFrom (c + a) b := by
  induction a with
  | zero => intro c b; simp [idsFrom]
  | succ a ih =>
      intro c b
      have h1 : a + 1 + b = (a + b) + 1 := by omega
      have h2 : c + 1 + a = c + (a + 1) := by omega
      rw [h1, idsFrom, idsFrom, ih (c + 1) b, h2, List.cons_append]

lemma idsFrom_eq_range : ∀ (n c : Nat),
    idsFrom c n = (List.range n).map (fun i => some (c + i)) := by
  intro n
  induction n with
  | zero => intro c; simp [idsFrom]
  | succ n ih =>
      intro c
      rw [idsFrom, List.range_succ_eq_map, List.map_cons, ih (c + 1), List.map_map]
      have h2 : (fun i => some (c + 1 + i)) = ((fun i => some (c + i)) ∘ Nat.succ) := by
        funext i
        simp only [Function.comp]
        congr 1
        omega
      rw [h2, Nat.add_zero]

lemma run_frame : ∀ (events : List Event) (s s' : NodeState) (outs : List Message),
    run s events = .ok (s', outs) →
    s'.node_id = s.node_id ∧ s.broadcast_ids ⊆ s'.broadcast_ids := by
  intro events
  induction events with
  | nil =>
      intro s s' outs h
      simp only [run, Except.ok.injEq, Prod.mk.injEq] at h
      obtain ⟨rfl, rfl⟩ := h
      exact ⟨rfl, Finset.Subset.refl _⟩
  | cons e rest ih =>
      intro s s' outs h
      by_cases he : e = .Internal .Eof
      · subst he
        simp only [run, Except.ok.injEq, Prod.mk.injEq] at h
        obtain ⟨rfl, rfl⟩ := h
        exact ⟨rfl, Finset.Subset.refl _⟩
      · rw [run_cons_ne_eof s e rest he] at h
        split at h
        · simp at h
        · rename_i s1 out1 hstep
          split at h
          · simp at h
          · rename_i s2 outs2 hrun
            simp only [Except.ok.injEq, Prod.mk.injEq] at h
            obtain ⟨rfl, rfl⟩ := h
            obtain ⟨f1, f2, -⟩ := step_frame _ _ _ _ hstep
            obtain ⟨g1, g2⟩ := ih _ _ _ hrun
            exact ⟨g1.trans f1, f2.trans g2⟩

lemma run_ids : ∀ (events : List Event) (s s' : NodeState) (outs : List Message),
    run s events = .ok (s', outs) →
    outs.map (fun m => m.body.msg_id) = idsFrom s.uniq_msg_id outs.length ∧
      s'.uniq_msg_id = s.uniq_msg_id + outs.length := by
  intro events
  induction events with
  | nil =>
      intro s s' outs h
      simp only [run, Except.ok.injEq, Prod.mk.injEq] at h
      obtain ⟨rfl, rfl⟩ := h
      simp [idsFrom]
  | cons e rest ih =>
      intro s s' outs h
      by_cases he : e = .Internal .Eof
      · subst he
        simp only [run, Except.ok.injEq, Prod.mk.injEq] at h
        obtain ⟨rfl, rfl⟩ := h
        simp [idsFrom]
      · rw [run_cons_ne_eof s e rest he] at h
        split at h
        · simp at h
        · rename_i s1 out1 hstep
          split at h
          · simp at h
          · rename_i s2 outs2 hrun
            simp only [Except.ok.injEq, Prod.mk.injEq] at h
            obtain ⟨rfl, rfl⟩ := h
            obtain ⟨a1, a2⟩ := step_ids _ _ _ _ hstep
            obtain ⟨b1, b2⟩ := ih _ _ _ hrun
            constructor
            · rw [List.map_append, a1, b1, a2, List.length_append,
                idsFrom_append out1.length]
            · rw [b2, a2, List.length_append]
              omega

lemma run_no_redundant : ∀ (events : List Event) (s s' : NodeState) (outs : List Message),
    run s events = .ok (s', outs) →
    (∀ e ∈ events, isTopoEvent e = false) →
    ∀ (D : String) (V : Int) (k : Finset Int),
      lookupS D s.known_ids = some k → V ∈ k →
      ∀ msg ∈ outs, msg.dst = D → ∀ ms, msg.body.payload = .Gossip ms → V ∉ ms := by
  intro events
  induction events with
  | nil =>
      intro s s' outs h _ D V k _ _ msg hm
      simp only [run, Except.ok.injEq, Prod.mk.injEq] at h
      obtain ⟨rfl, rfl⟩ := h
      simp at hm
  | cons e rest ih =>
      intro s s' outs h hnt D V k hk hV msg hm hdst ms hp
      by_cases he : e = .Internal .Eof
      · subst he
        simp only [run, Except.ok.injEq, Prod.mk.injEq] at h
        obtain ⟨rfl, rfl⟩ := h
        simp at hm
      · rw [run_cons_ne_eof s e rest he] at h
        split at h
        · simp at h
        · rename_i s1 out1 hstep
          split at h
          · simp at h
          · rename_i s2 outs2 hrun
            simp only [Except.ok.injEq, Prod.mk.injEq] at h
            obtain ⟨rfl, rfl⟩ := h
            rcases List.mem_append.mp hm with hm1 | hm2
            · obtain ⟨k0, hk0, hms⟩ := step_gossip_out _ _ _ _ hstep msg hm1 ms hp
              rw [hdst] at hk0
              rw [hk0] at hk
              injection hk with hk
              subst hk
              rw [hms]
              simp only [Finset.mem_sdiff, not_and, not_not]
              intro _
              exact hV
            · obtain ⟨-, -, hrest⟩ := step_frame _ _ _ _ hstep
              obtain ⟨-, hkm⟩ := hrest (hnt e (List.mem_cons_self e rest))
              obtain ⟨k', hk', hsub⟩ := hkm D k hk
              exact ih _ _ _ hrun (fun x hx => hnt x (List.mem_cons_of_mem e hx))
                D V k' hk' (hsub hV) msg hm2 hdst ms hp

lemma run_self_topo : ∀ (events : List Event) (s s' : NodeState) (outs : List Message),
    run s events = .ok (s', outs) →
    (∀ e ∈ events, topoOkFor s.node_id e = true) →
    (lookupS s.node_id s.topology).isSome →
    s'.node_id = s.node_id ∧ (lookupS s'.node_id s'.topology).isSome := by
  intro events
  induction events with
  | nil =>
      intro s s' outs h _ hself
      simp only [run, Except.ok.injEq, Prod.mk.injEq] at h
      obtain ⟨rfl, rfl⟩ := h
      exact ⟨rfl, hself⟩
  | cons e rest ih =>
      intro s s' outs h hok hself
      by_cases he : e = .Internal .Eof
      · subst he
        simp only [run, Except.ok.injEq, Prod.mk.injEq] at h
        obtain ⟨rfl, rfl⟩ := h
        exact ⟨rfl, hself⟩
      · rw [run_cons_ne_eof s e rest he] at h
        split at h
        · simp at h
        · rename_i s1 out1 hstep
          split at h
          · simp at h
          · rename_i s2 outs2 hrun
            simp only [Except.ok.injEq, Prod.mk.injEq] at h
            obtain ⟨rfl, rfl⟩ := h
            obtain ⟨hnid, -, hrest⟩ := step_frame _ _ _ _ hstep
            have hself1 : (lookupS s1.node_id s1.topology).isSome := by
              by_cases ht : isTopoEvent e = true
              · obtain ⟨src2, dst2, mid2, irt2, topo2, rfl⟩ := isTopoEvent_true ht
                rw [step_topo_eq] at hstep
                simp only [Except.ok.injEq, Prod.mk.injEq] at hstep
                obtain ⟨rfl, -⟩ := hstep
                have := hok _ (List.mem_cons_self _ rest)
                simp only [topoOkFor] at this
                simpa using this
              · obtain ⟨htop, -⟩ := hrest (by simpa using ht)
                rw [hnid, htop]
                exact hself
            obtain ⟨g1, g2⟩ := ih _ _ _ hrun
              (by
                intro x hx
                rw [hnid]
                exact hok x (List.mem_cons_of_mem e hx))
              hself1
            exact ⟨g1.trans hnid, g2⟩

lemma toDigitsCore_acc (fuel : Nat) : ∀ (n : Nat) (ds : List Char),
    Nat.toDigitsCore 10 fuel n ds = Nat.toDigitsCore 10 fuel n [] ++ ds := by
  induction fuel with
  | zero => intro n ds; simp [Nat.toDigitsCore]
  | succ fuel ih =>
      intro n ds
      simp only [Nat.toDigitsCore]
      by_cases h : n / 10 = 0
      · rw [if_pos h, if_pos h]
        simp
      · rw [if_neg h, if_neg h, ih (n / 10) (Nat.digitChar (n % 10) :: ds),
          ih (n / 10) [Nat.digitChar (n % 10)]]
        simp

lemma decodeDigits_append (l : List Char) (c : Char) :
    decodeDigits (l ++ [c]) = 10 * decodeDigits l + charVal c := by
  simp [decodeDigits, List.foldl_append]

lemma charVal_digitChar : ∀ k, k < 10 → charVal (Nat.digitChar k) = k := by decide

lemma decode_toDigitsCore : ∀ (fuel n : Nat), n < fuel →
    decodeDigits (Nat.toDigitsCore 10 fuel n []) = n := by
  intro fuel
  induction fuel with
  | zero => intro n h; omega
  | succ fuel ih =>
      intro n h
      simp only [Nat.toDigitsCore]
      by_cases h0 : n / 10 = 0
      · rw [if_pos h0]
        have hn : n < 10 := by omega
        have hm : n % 10 = n := Nat.mod_eq_of_lt hn
        rw [hm]
        simp [decodeDigits, charVal_digitChar n hn]
      · rw [if_neg h0, toDigitsCore_acc, decodeDigits_append]
        have hlt : n / 10 < fuel := by omega
        rw [ih (n / 10) hlt, charVal_digitChar (n % 10) (by omega)]
        omega

lemma decodeDigits_toDigits (n : Nat) : decodeDigits (Nat.toDigits 10 n) = n :=
  decode_toDigitsCore (n + 1) n (Nat.lt_succ_self n)

lemma natRepr_inj {a b : Nat} (h : Nat.repr a = Nat.repr b) : a = b := by
  have hd : Nat.toDigits 10 a = Nat.toDigits 10 b := by
    have := congrArg String.data h
    simpa [Nat.repr, List.asString] using this
  have := congrArg decodeDigits hd
  rwa [decodeDigits_toDigits, decodeDigits_toDigits] at this

lemma generateId_inj (nid : String) (c₁ c₂ : Nat)
    (h : nid ++ "-" ++ toString c₁ = nid ++ "-" ++ toString c₂) : c₁ = c₂ := by
  apply natRepr_inj
  have hd := congrArg String.data h
  simp only [String.data_append] at hd
  have h1 := List.append_cancel_left hd
  exact String.ext h1

lemma lookup_reseed (nid : String) (keys : List String) : ∀ (k : String),
    k ∈ keys → k ≠ nid →
    lookupS k ((keys.filter (fun n => n ≠ nid)).map (fun x => (x, (∅ : Finset Int))))
      = some ∅ := by
  induction keys with
  | nil => intro k hk; simp at hk
  | cons a rest ih =>
      intro k hk hne
      by_cases ha : a = nid
      · have : k ∈ rest := by
          rcases List.mem_cons.mp hk with rfl | hk'
          · exact absurd ha hne
          · exact hk'
        simpa [List.filter_cons, ha] using ih k this hne
      · by_cases hak : a = k
        · simp [List.filter_cons, ha, lookupS, hak, hne]
        · have : k ∈ rest := by
            rcases List.mem_cons.mp hk with rfl | hk'
            · exact absurd rfl hak
            · exact hk'
          simpa [List.filter_cons, ha, lookupS, hak] using ih k this hne

/-- Claim C10: in a state whose Broadcast Set is empty, processing a Tick
event emits no outbound message and leaves every component of the node
state — message-id counter, topology and Known-Ids table included —
unchanged (the state returned is the very same record). -/
theorem tick_empty_noop (s : NodeState) (h : s.broadcast_ids = ∅) :
    step s (.Internal .Timer) = .ok (s, []) := by
  simp [step, h]

theorem tick_empty_noop_witness :
    newNode.broadcast_ids = ∅ ∧ step newNode (.Internal .Timer) = .ok (newNode, []) :=
  ⟨rfl, tick_empty_noop newNode rfl⟩

/-- Claim C2 (code-bug evidence): on `init {node_id:"n1", node_ids:["n1","n2"]}`
the node adopts the id and cluster and replies `init_ok` with
`in_reply_to = 7` (the init's `msg_id`) as claimed, but it seeds
`topology["n1"]` with the full cluster `["n1","n2"]` — self included,
where the claim says all cluster members other than itself — and seeds
`known_ids` with a single entry for `"n1"` itself, where the claim says
one empty set per cluster member except self: the other member `"n2"` has
no entry at all. -/
theorem init_seeding_divergence :
    initNode newNode (.External initMsg)
      = .ok ({ node_id := "n1", cluster := ["n1", "n2"],
               topology := [("n1", ["n1", "n2"])],
               uniq_msg_id := 1, broadcast_ids := ∅,
               known_ids := [("n1", ∅)] },
             { src := "n1", dst := "c0",
               body := { msg_id := some 0, in_reply_to := some 7,
                         payload := .InitOk } })
      ∧ lookupS "n2" [("n1", (∅ : Finset Int))] = none :=
  ⟨rfl, rfl⟩

/-- Claim C1 (code-bug evidence): the state reached by
`init {node_id:"n1", node_ids:["n1","n2"]}` followed by `broadcast 5` has a
non-empty Broadcast Set, and the claim requires the next Tick to send
`gossip {messages: {5}}` to the neighbor `n2`; instead the code hits the
`expect("always have a known_for bucket")` panic, because the init seeding
left no Known-Ids bucket for `n2`, so no gossip is sent at all. -/
theorem first_tick_after_init_fails :
    (do
      let r ← initNode newNode (.External initMsg)
      run r.1 [.External bcastMsg, .Internal .Timer])
      = Except.error "always have a known_for bucket" := by
  rfl

/-- Claim C3: a `gossip {messages}` received from a sender that has a
Known-Ids entry inserts every incoming value into the Broadcast Set and
into the sender's Known-Ids entry, and emits no reply. -/
theorem gossip_received_merges (s : NodeState) (src dst : String)
    (mid irt : Option Nat) (msgs k : Finset Int)
    (hk : lookupS src s.known_ids = some k) :
    ∃ s', step s (.External ⟨src, dst, ⟨mid, irt, .Gossip msgs⟩⟩) = .ok (s', []) ∧
      s'.broadcast_ids = s.broadcast_ids ∪ msgs ∧
      lookupS src s'.known_ids = some (k ∪ msgs) ∧
      ∀ v ∈ msgs, v ∈ s'.broadcast_ids ∧
        ∃ k', lookupS src s'.known_ids = some k' ∧ v ∈ k' := by
  obtain ⟨l', hek⟩ := extendKnown_of_lookup src msgs k s.known_ids hk
  obtain ⟨k0, hk0, hl'⟩ := extendKnown_some src msgs s.known_ids l' hek
  rw [hk] at hk0
  injection hk0 with hk0
  subst hk0
  refine ⟨{ s with broadcast_ids := s.broadcast_ids ∪ msgs, known_ids := l' },
    ?_, rfl, hl', ?_⟩
  · simp [step, hek]
  · intro v hv
    exact ⟨Finset.mem_union_right _ hv, _, hl', Finset.mem_union_right _ hv⟩

theorem gossip_received_merges_witness :
    lookupS "n2" wState.known_ids = some (∅ : Finset Int) ∧
      ∃ s', step wState (.External ⟨"n2", "n1", ⟨some 1, none, .Gossip {5}⟩⟩)
          = .ok (s', []) ∧
        s'.broadcast_ids = wState.broadcast_ids ∪ {5} ∧
        lookupS "n2" s'.known_ids = some (∅ ∪ {5}) ∧
        ∀ v ∈ ({5} : Finset Int), v ∈ s'.broadcast_ids ∧
          ∃ k', lookupS "n2" s'.known_ids = some k' ∧ v ∈ k' :=
  ⟨rfl, gossip_received_merges wState "n2" "n1" (some 1) none {5} ∅ rfl⟩

/-- Claim C4: once neighbor `D` has gossiped a value `V` to this node
(and that gossip was processed), no later event processing — Ticks
included — with no intervening topology message produces a gossip message
addressed to `D` that contains `V`. -/
theorem no_gossip_back_after_received (s0 : NodeState) (D dst : String)
    (mid irt : Option Nat) (msgs : Finset Int) (V : Int) (hV : V ∈ msgs)
    (s1 : NodeState) (out1 : List Message)
    (hg : step s0 (.External ⟨D, dst, ⟨mid, irt, .Gossip msgs⟩⟩) = .ok (s1, out1))
    (events : List Event) (hnt : ∀ e ∈ events, isTopoEvent e = false)
    (s' : NodeState) (outs : List Message)
    (hrun : run s1 events = .ok (s', outs)) :
    ∀ msg ∈ outs, msg.dst = D → ∀ ms, msg.body.payload = .Gossip ms → V ∉ ms := by
  simp only [step] at hg
  cases hek : extendKnown D msgs s0.known_ids with
  | none => rw [hek] at hg; simp at hg
  | some ki =>
      rw [hek] at hg
      simp only [Except.ok.injEq, Prod.mk.injEq] at hg
      obtain ⟨rfl, rfl⟩ := hg
      obtain ⟨k0, -, hki⟩ := extendKnown_some D msgs s0.known_ids ki hek
      exact run_no_redundant events _ s' outs hrun hnt D V (k0 ∪ msgs) hki
        (Finset.mem_union_right _ hV)

theorem no_gossip_back_after_received_witness :
    (5 : Int) ∈ ({5} : Finset Int) ∧
    step wState (.External ⟨"n2", "n1", ⟨some 1, none, .Gossip {5}⟩⟩)
      = .ok (wGos, []) ∧
    (∀ e ∈ [Event.Internal .Timer], isTopoEvent e = false) ∧
    run wGos [.Internal .Timer] = .ok (wGos, []) ∧
    ∀ msg ∈ ([] : List Message), msg.dst = "n2" →
      ∀ ms, msg.body.payload = .Gossip ms → (5 : Int) ∉ ms :=
  ⟨by decide, rfl, by decide, rfl,
   no_gossip_back_after_received wState "n2" "n1" (some 1) none {5} 5 (by decide)
     wGos [] rfl [.Internal .Timer] (by decide) wGos [] rfl⟩

/-- Claim C5 (counterexample): the claim quantifies over any sequence of
events including topology messages; after `init` as `n1`, processing the
`topology` message whose mapping is `{"n2": []}` yields a reachable state
whose topology has no entry keyed by the node's own id `n1`, so the
claimed invariant is false as stated. -/
theorem topology_self_entry_counterexample :
    (do
      let r ← initNode newNode (.External initMsg)
      let r2 ← run r.1 [.External topoMsg]
      pure (lookupS r2.1.node_id r2.1.topology))
      = Except.ok none := by
  rfl

/-- Claim C5 (amended): after initialization, provided every received
`topology` message's mapping contains an entry keyed by this node's id —
the conformance the trusted driver guarantees — every reachable state's
topology contains an entry keyed by the node's own id. -/
theorem topology_self_entry_amended (e0 : Event) (s0 : NodeState) (m0 : Message)
    (hinit : initNode newNode e0 = .ok (s0, m0))
    (events : List Event) (s' : NodeState) (outs : List Message)
    (hok : ∀ e ∈ events, topoOkFor s0.node_id e = true)
    (hrun : run s0 events = .ok (s', outs)) :
    (lookupS s'.node_id s'.topology).isSome := by
  obtain ⟨h1, -, -, -, -⟩ := initNode_ok _ _ _ _ hinit
  exact (run_self_topo events s0 s' outs hrun hok (by rw [h1]; rfl)).2

theorem topology_self_entry_amended_witness :
    initNode newNode (.External initMsg) = .ok (postInit, initOkReply) ∧
    (∀ e ∈ [Event.Internal .Timer], topoOkFor postInit.node_id e = true) ∧
    run postInit [.Internal .Timer] = .ok (postInit, []) ∧
    (lookupS postInit.node_id postInit.topology).isSome :=
  ⟨rfl, by decide, rfl,
   topology_self_entry_amended (.External initMsg) postInit initOkReply rfl
     [.Internal .Timer] postInit [] (by decide) rfl⟩

/-- Claim C6: a `topology {topology}` message received while initialized
replaces the Topology wholesale with the given mapping, clears and
re-seeds the Known-Ids table with one empty set per key of the new
mapping other than self (every entry is empty regardless of prior
contents, and none is keyed by self), and sends a `topology_ok` reply to
the originator carrying the request's `msg_id` as `in_reply_to`. -/
theorem topology_replace_reseed (s : NodeState) (src dst : String)
    (mid irt : Option Nat) (topo : List (String × List String)) :
    ∃ s' reply,
      step s (.External ⟨src, dst, ⟨mid, irt, .Topology topo⟩⟩) = .ok (s', [reply]) ∧
      s'.topology = topo ∧
      (∀ k, k ∈ topo.map Prod.fst → k ≠ s.node_id → lookupS k s'.known_ids = some ∅) ∧
      (∀ p ∈ s'.known_ids, p.2 = ∅ ∧ p.1 ≠ s.node_id) ∧
      reply.dst = src ∧ reply.body.in_reply_to = mid ∧
      reply.body.payload = .TopologyOk := by
  refine ⟨_, _, step_topo_eq s src dst mid irt topo, rfl, ?_, ?_, rfl, rfl, rfl⟩
  · intro k hk hne
    exact lookup_reseed s.node_id (topo.map Prod.fst) k hk hne
  · intro p hp
    simp only [List.mem_map, List.mem_filter] at hp
    obtain ⟨x, ⟨hx1, hx2⟩, rfl⟩ := hp
    exact ⟨rfl, by simpa using hx2⟩

theorem topology_replace_reseed_witness :
    ∃ s' reply,
      step wState (.External ⟨"c0", "n1", ⟨some 4, none,
          .Topology [("n1", ["n2"]), ("n2", ["n1"])]⟩⟩) = .ok (s', [reply]) ∧
      s'.topology = [("n1", ["n2"]), ("n2", ["n1"])] ∧
      (∀ k, k ∈ [("n1", ["n2"]), ("n2", ["n1"])].map Prod.fst →
        k ≠ wState.node_id → lookupS k s'.known_ids = some ∅) ∧
      (∀ p ∈ s'.known_ids, p.2 = ∅ ∧ p.1 ≠ wState.node_id) ∧
      reply.dst = "c0" ∧ reply.body.in_reply_to = some 4 ∧
      reply.body.payload = .TopologyOk :=
  topology_replace_reseed wState "c0" "n1" (some 4) none
    [("n1", ["n2"]), ("n2", ["n1"])]

/-- Claim C7: across any processed event sequence the Broadcast Set only
grows (the final set is a superset of the initial one), and processing a
`broadcast` whose value is already present leaves the Broadcast Set
unchanged (insertion is idempotent). -/
theorem broadcast_monotone_idempotent :
    (∀ (s : NodeState) (events : List Event) (s' : NodeState) (outs : List Message),
        run s events = .ok (s', outs) → s.broadcast_ids ⊆ s'.broadcast_ids) ∧
    (∀ (s : NodeState) (v : Int) (src dst : String) (mid irt : Option Nat)
        (s' : NodeState) (out : List Message),
        v ∈ s.broadcast_ids →
        step s (.External ⟨src, dst, ⟨mid, irt, .Broadcast v⟩⟩) = .ok (s', out) →
        s'.broadcast_ids = s.broadcast_ids) := by
  constructor
  · intro s events s' outs h
    exact (run_frame events s s' outs h).2
  · intro s v src dst mid irt s' out hv h
    simp only [step, sendTo, Except.ok.injEq, Prod.mk.injEq] at h
    obtain ⟨rfl, rfl⟩ := h
    simp [Finset.insert_eq_self.mpr hv]

theorem broadcast_monotone_idempotent_witness :
    run wState [.External bcastMsg] = .ok (wAfterB, [bReply]) ∧
    wState.broadcast_ids ⊆ wAfterB.broadcast_ids ∧
    (5 : Int) ∈ wState.broadcast_ids ∧
    step wState (.External bcastMsg) = .ok (wAfterB, [bReply]) ∧
    wAfterB.broadcast_ids = wState.broadcast_ids :=
  ⟨rfl,
   broadcast_monotone_idempotent.1 wState [.External bcastMsg] wAfterB [bReply] rfl,
   by decide, rfl,
   broadcast_monotone_idempotent.2 wState 5 "c0" "n1" (some 8) none wAfterB [bReply]
     (by decide) rfl⟩

/-- Claim C8: counting the `init_ok` first, the `msg_id` values assigned
to the N outbound messages a node emits are exactly `0, 1, …, N−1`: the
counter starts at 0 and is incremented by exactly one on every send,
whatever the message kind. -/
theorem msg_id_sequence (e0 : Event) (s0 : NodeState) (m0 : Message)
    (hinit : initNode newNode e0 = .ok (s0, m0))
    (events : List Event) (s' : NodeState) (outs : List Message)
    (hrun : run s0 events = .ok (s', outs)) :
    (m0 :: outs).map (fun m => m.body.msg_id)
      = (List.range (outs.length + 1)).map Option.some := by
  obtain ⟨-, -, hu, -, hm⟩ := initNode_ok _ _ _ _ hinit
  obtain ⟨hids, -⟩ := run_ids events s0 s' outs hrun
  rw [List.map_cons, hm, hids, hu]
  have h1 : newNode.uniq_msg_id = 0 := rfl
  rw [h1]
  have h2 : some (0 : Nat) :: idsFrom (0 + 1) outs.length
      = idsFrom 0 (outs.length + 1) := rfl
  rw [h2, idsFrom_eq_range]
  simp

theorem msg_id_sequence_witness :
    initNode newNode (.External initMsg) = .ok (postInit, initOkReply) ∧
    run postInit [.External bcastMsg] = .ok (postB, [postBReply]) ∧
    (initOkReply :: [postBReply]).map (fun m => m.body.msg_id)
      = (List.range ([postBReply].length + 1)).map Option.some :=
  ⟨rfl, rfl,
   msg_id_sequence (.External initMsg) postInit initOkReply rfl
     [.External bcastMsg] postB [postBReply] rfl⟩

/-- Claim C9: a `generate` request is answered by a `generate_ok` whose id
is the node's id, a hyphen, and the decimal rendering of the very counter
value assigned as that reply's `msg_id`; and for one node two such ids
built from different counter values are always distinct. -/
theorem generate_id_spec (s : NodeState) (src dst : String) (mid irt : Option Nat) :
    step s (.External ⟨src, dst, ⟨mid, irt, .Generate⟩⟩)
      = .ok ({ s with uniq_msg_id := s.uniq_msg_id + 1 },
             [{ src := s.node_id, dst := src,
                body := { msg_id := some s.uniq_msg_id, in_reply_to := mid,
                          payload := .GenerateOk
                            (s.node_id ++ "-" ++ toString s.uniq_msg_id) } }])
      ∧ ∀ c₁ c₂ : Nat, c₁ ≠ c₂ →
          s.node_id ++ "-" ++ toString c₁ ≠ s.node_id ++ "-" ++ toString c₂ :=
  ⟨rfl, fun c₁ c₂ hne h => hne (generateId_inj s.node_id c₁ c₂ h)⟩

theorem generate_id_spec_witness :
    step wState (.External ⟨"c0", "n1", ⟨some 2, none, .Generate⟩⟩)
      = .ok ({ wState with uniq_msg_id := wState.uniq_msg_id + 1 },
             [{ src := wState.node_id, dst := "c0",
                body := { msg_id := some wState.uniq_msg_id, in_reply_to := some 2,
                          payload := .GenerateOk
                            (wState.node_id ++ "-" ++ toString wState.uniq_msg_id) } }])
      ∧ (0 : Nat) ≠ 1
      ∧ wState.node_id ++ "-" ++ toString 0 ≠ wState.node_id ++ "-" ++ toString 1 :=
  ⟨(generate_id_spec wState "c0" "n1" (some 2) none).1, by decide,
   (generate_id_spec wState "c0" "n1" (some 2) none).2 0 1 (by decide)⟩

end Bedlam
